import Mathlib

/-!
Verification of the factored transition-model compiler of the ASIST
search-and-rescue domain (module victims_clr.py, class Victims).

Shallow embedding conventions:
* Victim severity colors are the inductive type Color; the string value
  "none" held by the FOV / crosshair / approached variables is modelled as
  Option Color with Option.none standing for the string "none".
* Probabilities are modelled as rationals.  Python dicts that map colors or
  locations to values are modelled as association lists in insertion order,
  and dict indexing that can raise KeyError is modelled with Option.
* The psychsim decision trees produced by makeTree / setDynamics are
  embedded by their evaluation semantics: a tree built with
  anding(conditions, ifTrue, ifFalse) selects ifTrue exactly when every
  condition holds (module helpers is not part of the sources at hand; the
  all-conditions / any-condition semantics of anding and oring is modelled
  from the specification's description of the compiled behavior, e.g. the
  triage legality rule), equalRow compares a state feature with a constant,
  makeFuture reads the post-step value of a feature, incrementMatrix adds a
  constant, setToConstantMatrix writes a constant, and noChangeMatrix keeps
  the pre-step value.
-/

namespace VictimsCLR

/-- Victim severity colors, Victims.COLORS. -/
inductive Color where
  | Green
  | Gold
  | Red
  | White
deriving DecidableEq

/-- COLORS = a list with Green, Gold, Red, White, in source order. -/
def COLORS : List Color := [Color.Green, Color.Gold, Color.Red, Color.White]

/-- COLOR_REQD_TIMES = a dict with Green 1, Gold 1; indexing any other color
raises KeyError, modelled as Option.none. -/
def COLOR_REQD_TIMES : Color → Option Int
  | Color.Green => some 1
  | Color.Gold => some 1
  | _ => none

/-- COLOR_REWARDS = a dict with Green 10, Gold 200; other colors KeyError. -/
def COLOR_REWARDS : Color → Option Int
  | Color.Green => some 10
  | Color.Gold => some 200
  | _ => none

/-- Iteration order of the keys of COLOR_REQD_TIMES (a Python dict preserves
insertion order). -/
def COLOR_REQD_TIMES_keys : List Color := [Color.Green, Color.Gold]

/-- A value of the vicInFOV / vicInCH / vicApproached variables: a color or
the string "none" (modelled as Option.none). -/
abbrev FovVal := Option Color

/-- A probability table over field-of-view values, in dict insertion order.
Victims.normalizeD turns such a table into a list of
(setToConstantMatrix(fovKey, c), p) pairs; we keep the (c, p) content. -/
abbrev Dist := List (FovVal × ℚ)

/-- Victims.normalizeD: divide every weight by the total weight. -/
def normalizeD (d : Dist) : Dist :=
  let sammy := (d.map Prod.snd).sum
  d.map fun cp => (cp.1, cp.2 / sammy)

/-- The numVicsInRoom = 0 table of Victims.makeAllFOVDistrs:
d = a dict with only the key none mapped to 1, normalized. -/
def fovDistr0 : Dist := normalizeD [(none, 1)]

/-- The numVicsInRoom = 1 table of Victims.makeAllFOVDistrs, for a victim of
color c1: d = a dict with c1 mapped to COLOR_FOV_P of c1 and none mapped to
the complement, normalized.  The detection-probability table COLOR_FOV_P is
configuration (callers overwrite it), so it is a parameter p here. -/
def fovDistr1 (p : Color → ℚ) (c1 : Color) : Dist :=
  normalizeD [(some c1, p c1), (none, 1 - p c1)]

/-- The numVicsInRoom = 2 table of Victims.makeAllFOVDistrs for victim colors
c1 and c2: equal colors double the probability, distinct colors each keep
their own, the key none receives one minus the sum so far; normalized. -/
def fovDistr2 (p : Color → ℚ) (c1 c2 : Color) : Dist :=
  normalizeD
    (if c1 = c2 then [(some c1, 2 * p c1), (none, 1 - 2 * p c1)]
     else [(some c1, p c1), (some c2, p c2), (none, 1 - (p c1 + p c2))])

/-- Return shape of Victims.makeAllFOVDistrs: a bare table for 0 victims, a
per-color dict for 1 victim, a nested per-color dict for 2 victims. -/
inductive FOVTable where
  | zero (d : Dist)
  | one (f : Color → Dist)
  | two (f : Color → Color → Dist)

/-- Victims.makeAllFOVDistrs.  For numVicsInRoom outside 0, 1, 2 the Python
function falls off the end and returns None, modelled as Option.none; no
exception is raised. -/
def makeAllFOVDistrs (p : Color → ℚ) : Nat → Option FOVTable
  | 0 => some (FOVTable.zero fovDistr0)
  | 1 => some (FOVTable.one (fovDistr1 p))
  | 2 => some (FOVTable.two (fovDistr2 p))
  | _ + 3 => none

/-- Association-list model of a Python dict: first matching key wins (dict
keys are unique). -/
def dictGet {α : Type} [DecidableEq α] {β : Type} : List (α × β) → α → Option β
  | [], _ => none
  | (k, v) :: rest, k' => if k' = k then some v else dictGet rest k'

/-- The per-room victim dict: Victims.victimsByLocAndColor maps a location to
a dict from color to the victim object; of the victim object only the agent
name matters here. -/
abbrev VicDict := List (Color × String)

/-- Victims.victimsByLocAndColor as a whole. -/
abbrev LocDict := List (String × VicDict)

/-- One branch of the field-of-view dynamics tree built by
Victims.makeSearchAction for one location: either a single set-matrix, a
probabilistic node, or an equalRow branch on a victim's color variable with
one case per element of COLORS. -/
inductive FovNode where
  | mat (v : FovVal)
  | pdist (d : Dist)
  | branch (vicColorOwner : String) (cases : List FovNode)

/-- The "if len(dist) greater than 1 then a distribution node else dist[0][0]"
idiom of makeSearchAction.  On an empty list Python would raise IndexError;
that case is unreachable for the tables produced here (normalizeD of a
nonempty table is nonempty). -/
def distOrMat (d : Dist) : FovNode :=
  match d with
  | [(c, _)] => FovNode.mat c
  | [] => FovNode.mat none
  | _ => FovNode.pdist d

/-- The branch of the search action's field-of-view tree that
Victims.makeSearchAction assigns for one location: the 0-victim table when
the location is not a key of victimsByLocAndColor, an equalRow tree over the
victims' color variables for exactly 1 or exactly 2 victims, and no
assignment at all (Option.none) for any other victim count. -/
def searchFovBranch (p : Color → ℚ) (reg : LocDict) (loc : String) : Option FovNode :=
  match dictGet reg loc with
  | none => some (distOrMat fovDistr0)
  | some vics =>
    match vics with
    | [v0] =>
        some (FovNode.branch v0.2 (COLORS.map fun c0 => distOrMat (fovDistr1 p c0)))
    | [v0, v1] =>
        some (FovNode.branch v0.2 (COLORS.map fun c0 =>
          FovNode.branch v1.2 (COLORS.map fun c1 => distOrMat (fovDistr2 p c0 c1))))
    | _ => none

/-- The whole field-of-view tree of Victims.makeSearchAction: one (possibly
missing) branch per discovered location.  The Python function always runs to
completion and hands the resulting tree to makeTree / setDynamics; it never
raises for an unsupported victim count. -/
def makeSearchActionFovTree (p : Color → ℚ) (reg : LocDict) (allLocations : List String) :
    List (Option FovNode) :=
  allLocations.map (searchFovBranch p reg)

/-- Outcome of Victims.getVicName.  keyError: the location is not a key of
victimsByLocAndColor, so the very first dict indexing raises KeyError (a
loud, reportable failure).  reportedEmpty: the location is known but holds
no victim of the requested color; the function prints an ERROR diagnostic
line and returns the empty string (reported, not silent).  name: the
registered victim agent's name. -/
inductive GetVicNameResult where
  | keyError
  | reportedEmpty
  | name (s : String)
deriving DecidableEq

/-- Victims.getVicName. -/
def getVicName (reg : LocDict) (loc : String) (color : Color) : GetVicNameResult :=
  match dictGet reg loc with
  | none => GetVicNameResult.keyError
  | some d =>
    match dictGet d color with
    | none => GetVicNameResult.reportedEmpty
    | some vicName => GetVicNameResult.name vicName

/-!
Trace model of the compiled action set.

A world holds the triaging agent's variables (setupTriager defines the
saved_Green and saved_Gold booleans and the vicInFOV, vicInCH, vicApproached
variables) and one state record per registered victim.  The registry lists
the compile-time (room, color) key of each victim, in the iteration order of
victimsByLocAndColor, in parallel with the list of victim state records.
The constant per-victim reward variable and the write-only unobserved-belief
booleans (createObsVars4Victims) are not read by any compiled dynamics and
are omitted from the state.  Movement actions are compiled by a separate
locations module; they are modelled by an action that changes only the
agent's loc variable, which over-approximates any possible movement.
-/

/-- Compile-time registry key of one victim: the (room, color) under which it
is stored in victimsByLocAndColor. -/
structure RegVic where
  room : String
  color : Color
deriving DecidableEq

/-- Mutable state of one victim agent: its color, danger and savior state
variables.  savior holds the string "none" or a human agent name. -/
structure VicState where
  color : Color
  danger : Int
  savior : String
deriving DecidableEq

/-- The triaging agent's state variables created by setupTriager. -/
structure AgentState where
  loc : String
  vicInFOV : Option Color
  vicInCH : Option Color
  vicApproached : Option Color
  saved_Green : Bool
  saved_Gold : Bool
deriving DecidableEq

/-- A world: the agent plus the victim states, parallel to the registry. -/
structure World where
  agent : AgentState
  vics : List VicState
deriving DecidableEq

/-- Legality tree of the triage action in makeTriageAction: an
equalFeatureRow test that vicInCH equals vicApproached, whose True branch is
an oring of equalRow tests against Gold and Green, and whose False branch is
False. -/
def triageLegal (a : AgentState) : Bool :=
  if a.vicInCH = a.vicApproached then
    if a.vicInCH = some Color.Gold ∨ a.vicInCH = some Color.Green then true else false
  else false

/-- The three per-victim dynamics trees of makeTriageAction, evaluated on the
pre-step state: color is set to White and savior to the human's name when
the crosshair matches the victim's registry color, the agent is in the
victim's room, and danger equals 1; danger is decremented whenever the first
two conditions hold; every other case is noChangeMatrix. -/
def triageVicUpd (hname : String) (a : AgentState) (r : RegVic) (s : VicState) : VicState :=
  { color :=
      if a.vicInCH = some r.color ∧ a.loc = r.room ∧ s.danger = 1 then Color.White
      else s.color
    savior :=
      if a.vicInCH = some r.color ∧ a.loc = r.room ∧ s.danger = 1 then hname
      else s.savior
    danger :=
      if a.vicInCH = some r.color ∧ a.loc = r.room then s.danger - 1
      else s.danger }

/-- The chained condition of makeSavedColorDyn for one color: true when some
victim whose registry color is that color had savior "none" before the step
and savior equal to the human's name after the step (the tree reads the
future savior via makeFuture).  The three lists are traversed in parallel;
an empty victim list yields false, matching the continue branch that leaves
the flag without dynamics (hence unchanged). -/
def savedColorTrans (hname : String) (c : Color) :
    List RegVic → List VicState → List VicState → Bool
  | r :: rs, s :: ss, s' :: ss' =>
      (decide (r.color = c) && decide (s.savior = "none") && decide (s'.savior = hname))
        || savedColorTrans hname c rs ss ss'
  | _, _, _ => false

/-- The triage action's compiled dynamics: every registered victim is updated
by its three trees, and for each rescuable color the saved flag is set true
when the makeSavedColorDyn condition fires and left unchanged otherwise. -/
def stepTriage (hname : String) (reg : List RegVic) (w : World) : World :=
  let vics' := List.zipWith (triageVicUpd hname w.agent) reg w.vics
  { agent :=
      { w.agent with
        saved_Green :=
          if savedColorTrans hname Color.Green reg w.vics vics' then true
          else w.agent.saved_Green
        saved_Gold :=
          if savedColorTrans hname Color.Gold reg w.vics vics' then true
          else w.agent.saved_Gold }
    vics := vics' }

/-- The search action's compiled dynamics: vicInFOV is set to a sample of the
compiled field-of-view distribution (the sampled outcome is a parameter
here), vicInCH is reset to "none", the saved flags are reset by
resetJustSavedFlags, and vicApproached is unchanged.  The write-only
unobserved-belief updates are omitted. -/
def stepSearch (outcome : Option Color) (w : World) : World :=
  { w with
    agent :=
      { w.agent with
        vicInFOV := outcome
        vicInCH := none
        saved_Green := false
        saved_Gold := false } }

/-- The actCH action of makePreTriageActions: copy vicInFOV into vicInCH and
reset the saved flags. -/
def stepCH (w : World) : World :=
  { w with
    agent :=
      { w.agent with
        vicInCH := w.agent.vicInFOV
        saved_Green := false
        saved_Gold := false } }

/-- The actApproach action of makePreTriageActions: copy vicInFOV into
vicApproached and reset the saved flags. -/
def stepApproach (w : World) : World :=
  { w with
    agent :=
      { w.agent with
        vicApproached := w.agent.vicInFOV
        saved_Green := false
        saved_Gold := false } }

/-- Movement, compiled outside this module: only the loc variable changes. -/
def stepMove (dest : String) (w : World) : World :=
  { w with agent := { w.agent with loc := dest } }

/-- The action set.  A search action carries the field-of-view value sampled
from the compiled distribution. -/
inductive Act where
  | search (fovOutcome : Option Color)
  | actCH
  | actApproach
  | triage
  | move (dest : String)

/-- Legality predicates: search and movement are unconditionally legal, the
two pre-triage actions require a victim in the field of view (their tree
returns False exactly when vicInFOV is "none"), and triage uses the
makeTriageAction legality tree. -/
def legalAct (w : World) : Act → Bool
  | Act.search _ => true
  | Act.actCH => if w.agent.vicInFOV = none then false else true
  | Act.actApproach => if w.agent.vicInFOV = none then false else true
  | Act.triage => triageLegal w.agent
  | Act.move _ => true

/-- One world step by one action. -/
def step (hname : String) (reg : List RegVic) (w : World) : Act → World
  | Act.search o => stepSearch o w
  | Act.actCH => stepCH w
  | Act.actApproach => stepApproach w
  | Act.triage => stepTriage hname reg w
  | Act.move dest => stepMove dest w

/-- Execute a list of actions in order. -/
def run (hname : String) (reg : List RegVic) (w : World) : List Act → World
  | [] => w
  | a :: rest => run hname reg (step hname reg w a) rest

/-- The state _makeVictim gives a fresh victim: its declared color, danger
from COLOR_REQD_TIMES, savior "none".  Looking up the required-time or the
reward of a non-rescuable color raises KeyError, so construction fails
(Option.none) unless the color is Green or Gold. -/
def initVicState (c : Color) : Option VicState :=
  (COLOR_REQD_TIMES c).bind fun t =>
    (COLOR_REWARDS c).map fun _ => { color := c, danger := t, savior := "none" }

/-- The victim states makeVictims builds for a whole registry. -/
def initVics : List RegVic → Option (List VicState)
  | [] => some []
  | r :: rs => (initVicState r.color).bind fun s => (initVics rs).map fun ss => s :: ss

/-- The agent state after setupTriager: saved flags false, the three
perception variables "none". -/
def initAgent (loc0 : String) : AgentState :=
  { loc := loc0
    vicInFOV := none
    vicInCH := none
    vicApproached := none
    saved_Green := false
    saved_Gold := false }

/-- The world right after setupTriager. -/
def initWorld (loc0 : String) (reg : List RegVic) : Option World :=
  (initVics reg).map fun vs => { agent := initAgent loc0, vics := vs }

/-!
Reward assembler, Victims.makeVictimReward.
-/

/-- The reward tree built by makeVictimReward: a chain of trueRow tests on
the saved flags, each True branch a setToConstantMatrix on the reward key,
the final False branch a noChangeMatrix. -/
inductive RTree where
  | noChange
  | setConst (v : Int)
  | ifFlag (c : Color) (t f : RTree)
deriving DecidableEq

/-- The weight makeVictimReward picks for a color: the rwd_dict entry when a
dict is supplied and contains the color, else the COLOR_REWARDS entry
(Option.none models the KeyError on a color absent from both). -/
def rewardWeight (rwd_dict : Option (List (Color × Int))) (c : Color) : Option Int :=
  match rwd_dict with
  | some d =>
    match dictGet d c with
    | some w => some w
    | none => COLOR_REWARDS c
  | none => COLOR_REWARDS c

/-- The nested-dict construction loop of makeVictimReward over a list of
colors: each color contributes a trueRow test on its saved flag whose True
branch sets the reward to that color's weight, nested in the False branch of
the previous test; after the loop the innermost False branch is a
noChangeMatrix on the reward key. -/
def buildRewardTree (w : Color → Option Int) : List Color → Option RTree
  | [] => some RTree.noChange
  | c :: rest =>
      (w c).bind fun v =>
        (buildRewardTree w rest).map fun t => RTree.ifFlag c (RTree.setConst v) t

/-- Victims.makeVictimReward: the loop runs over the keys of
COLOR_REQD_TIMES in insertion order, Green then Gold. -/
def makeVictimReward (rwd_dict : Option (List (Color × Int))) : Option RTree :=
  buildRewardTree (rewardWeight rwd_dict) COLOR_REQD_TIMES_keys

/-- Evaluation of a reward tree on the agent's saved flags and previous
reward value. -/
def evalRTree (flags : Color → Bool) (oldR : Int) : RTree → Int
  | RTree.noChange => oldR
  | RTree.setConst v => v
  | RTree.ifFlag c t f =>
      if flags c then evalRTree flags oldR t else evalRTree flags oldR f

/-- All steps of a trace are legal when executed in order. -/
def legalRun (hname : String) (reg : List RegVic) : World → List Act → Bool
  | _, [] => true
  | w, a :: rest => legalAct w a && legalRun hname reg (step hname reg w a) rest

/-- A color with an entry in COLOR_REQD_TIMES and COLOR_REWARDS, hence one
whose victims the world builder can create. -/
def Rescuable (c : Color) : Prop := c = Color.Green ∨ c = Color.Gold

/-- Reachability invariant of one victim: either untouched (its declared
color, danger 1 from the required-time table, savior "none") or rescued
(White, danger at most 0, savior the triaging human). -/
def VicInv (hname : String) (r : RegVic) (s : VicState) : Prop :=
  (s.color = r.color ∧ s.danger = 1 ∧ s.savior = "none") ∨
  (s.color = Color.White ∧ s.danger ≤ 0 ∧ s.savior = hname)

/-! Helper lemmas. -/

lemma list_sum_map_div {α : Type} (l : List α) (f : α → ℚ) (s : ℚ) :
    (l.map fun x => f x / s).sum = (l.map f).sum / s := by
  induction l with
  | nil => simp
  | cons x xs ih => simp [ih, add_div]

lemma normalizeD_snd_sum (d : Dist) :
    ((normalizeD d).map Prod.snd).sum = (d.map Prod.snd).sum / (d.map Prod.snd).sum := by
  unfold normalizeD
  rw [List.map_map]
  exact list_sum_map_div d (fun cp => cp.2) ((d.map Prod.snd).sum)

lemma stepTriage_agent_frame (hname : String) (reg : List RegVic) (w : World) :
    (stepTriage hname reg w).agent.loc = w.agent.loc ∧
    (stepTriage hname reg w).agent.vicInFOV = w.agent.vicInFOV ∧
    (stepTriage hname reg w).agent.vicInCH = w.agent.vicInCH ∧
    (stepTriage hname reg w).agent.vicApproached = w.agent.vicApproached :=
  ⟨rfl, rfl, rfl, rfl⟩

lemma step_vics_length (hname : String) (reg : List RegVic) (w : World) (a : Act)
    (hlen : w.vics.length = reg.length) :
    (step hname reg w a).vics.length = reg.length := by
  cases a <;>
    simp [step, stepSearch, stepCH, stepApproach, stepMove, stepTriage,
      List.length_zipWith, hlen]

lemma run_vics_length (hname : String) (reg : List RegVic) (acts : List Act) (w : World)
    (hlen : w.vics.length = reg.length) :
    (run hname reg w acts).vics.length = reg.length := by
  induction acts generalizing w with
  | nil => exact hlen
  | cons a rest ih => exact ih (step hname reg w a) (step_vics_length hname reg w a hlen)

lemma stepTriage_vics_getElem (hname : String) (reg : List RegVic) (w : World) (i : Nat)
    (hi : i < reg.length) (hv : i < w.vics.length)
    (hv2 : i < (stepTriage hname reg w).vics.length) :
    (stepTriage hname reg w).vics[i] = triageVicUpd hname w.agent reg[i] w.vics[i] := by
  simp only [stepTriage]
  rw [List.getElem_zipWith]

lemma triageVicUpd_danger_le (hname : String) (a : AgentState) (r : RegVic) (s : VicState) :
    (triageVicUpd hname a r s).danger ≤ s.danger := by
  unfold triageVicUpd
  dsimp only
  split <;> omega

lemma step_vics_getElem_cases (hname : String) (reg : List RegVic) (w : World) (a : Act)
    (i : Nat) (hi : i < reg.length) (hv : i < w.vics.length)
    (hv2 : i < (step hname reg w a).vics.length) :
    (step hname reg w a).vics[i] = w.vics[i] ∨
    (step hname reg w a).vics[i] = triageVicUpd hname w.agent reg[i] w.vics[i] := by
  cases a with
  | search o => exact Or.inl rfl
  | actCH => exact Or.inl rfl
  | actApproach => exact Or.inl rfl
  | move dest => exact Or.inl rfl
  | triage =>
      exact Or.inr (stepTriage_vics_getElem hname reg w i hi hv hv2)

lemma step_danger_le (hname : String) (reg : List RegVic) (w : World) (a : Act)
    (i : Nat) (hi : i < reg.length) (hv : i < w.vics.length)
    (hv2 : i < (step hname reg w a).vics.length) :
    ((step hname reg w a).vics[i]).danger ≤ (w.vics[i]).danger := by
  rcases step_vics_getElem_cases hname reg w a i hi hv hv2 with h | h
  · rw [h]
  · rw [h]
    exact triageVicUpd_danger_le hname w.agent reg[i] w.vics[i]

lemma run_danger_le (hname : String) (reg : List RegVic) (acts : List Act) (w : World)
    (i : Nat) (hi : i < reg.length) (hlen : w.vics.length = reg.length)
    (hv : i < w.vics.length) (hv2 : i < (run hname reg w acts).vics.length) :
    ((run hname reg w acts).vics[i]).danger ≤ (w.vics[i]).danger := by
  induction acts generalizing w with
  | nil => exact le_refl _
  | cons a rest ih =>
      have hlen1 : (step hname reg w a).vics.length = reg.length :=
        step_vics_length hname reg w a hlen
      have hv1 : i < (step hname reg w a).vics.length := by omega
      have h2 : i < (run hname reg (step hname reg w a) rest).vics.length := by
        rw [run_vics_length hname reg rest _ hlen1]; omega
      calc ((run hname reg (step hname reg w a) rest).vics[i]).danger
          ≤ ((step hname reg w a).vics[i]).danger := ih (step hname reg w a) hlen1 hv1 h2
        _ ≤ (w.vics[i]).danger := step_danger_le hname reg w a i hi hv hv1

lemma triageVicUpd_inv (hname : String) (a : AgentState) (r : RegVic) (s : VicState)
    (h : VicInv hname r s) :
    VicInv hname r (triageVicUpd hname a r s) := by
  unfold VicInv triageVicUpd at *
  dsimp only
  rcases h with ⟨hc, hd, hs⟩ | ⟨hc, hd, hs⟩
  · by_cases hfire : a.vicInCH = some r.color ∧ a.loc = r.room
    · have hhit : a.vicInCH = some r.color ∧ a.loc = r.room ∧ s.danger = 1 :=
        ⟨hfire.1, hfire.2, hd⟩
      right
      rw [if_pos hhit, if_pos hhit, if_pos hfire]
      exact ⟨rfl, by omega, rfl⟩
    · have hhit : ¬(a.vicInCH = some r.color ∧ a.loc = r.room ∧ s.danger = 1) := by
        intro hx; exact hfire ⟨hx.1, hx.2.1⟩
      left
      rw [if_neg hhit, if_neg hhit, if_neg hfire]
      exact ⟨hc, hd, hs⟩
  · have hhit : ¬(a.vicInCH = some r.color ∧ a.loc = r.room ∧ s.danger = 1) := by
      intro hx; omega
    right
    rw [if_neg hhit, if_neg hhit]
    refine ⟨hc, ?_, hs⟩
    split <;> omega

/-- One compiled step keeps a rescued victim frozen: once danger is at most
0, the color and savior trees of every triage can no longer fire, so only
danger can still move (further down). -/
lemma step_rescued_frozen (hname : String) (reg : List RegVic) (w : World) (a : Act)
    (i : Nat) (hi : i < reg.length) (hv : i < w.vics.length)
    (hv2 : i < (step hname reg w a).vics.length)
    (hd : (w.vics[i]).danger ≤ 0) :
    ((step hname reg w a).vics[i]).savior = (w.vics[i]).savior ∧
    ((step hname reg w a).vics[i]).color = (w.vics[i]).color ∧
    ((step hname reg w a).vics[i]).danger ≤ 0 := by
  rcases step_vics_getElem_cases hname reg w a i hi hv hv2 with h | h
  · rw [h]; exact ⟨rfl, rfl, hd⟩
  · rw [h]
    unfold triageVicUpd
    dsimp only
    have hhit : ¬(w.agent.vicInCH = some (reg[i]).color ∧ w.agent.loc = (reg[i]).room ∧
        (w.vics[i]).danger = 1) := by
      intro hx; omega
    rw [if_neg hhit, if_neg hhit]
    refine ⟨rfl, rfl, ?_⟩
    split <;> omega

/-- Per-step exactness of the White flip: in any single triage update the
color turns White exactly on the update that takes danger from 1 to 0. -/
lemma triageVicUpd_white_exact (hname : String) (a : AgentState) (r : RegVic) (s : VicState) :
    ((triageVicUpd hname a r s).danger = 0 ∧ s.danger ≠ 0 →
        (triageVicUpd hname a r s).color = Color.White) ∧
    ((triageVicUpd hname a r s).color = Color.White ∧ s.color ≠ Color.White →
        s.danger = 1 ∧ (triageVicUpd hname a r s).danger = 0) := by
  unfold triageVicUpd
  dsimp only
  by_cases hfire : a.vicInCH = some r.color ∧ a.loc = r.room
  · by_cases h1 : s.danger = 1
    · have hhit : a.vicInCH = some r.color ∧ a.loc = r.room ∧ s.danger = 1 :=
        ⟨hfire.1, hfire.2, h1⟩
      rw [if_pos hhit, if_pos hfire]
      exact ⟨fun _ => rfl, fun _ => by omega⟩
    · have hhit : ¬(a.vicInCH = some r.color ∧ a.loc = r.room ∧ s.danger = 1) := by
        intro hx; exact h1 hx.2.2
      rw [if_neg hhit, if_pos hfire]
      constructor
      · intro hx; omega
      · intro hx; exact absurd hx.1 hx.2
  · have hhit : ¬(a.vicInCH = some r.color ∧ a.loc = r.room ∧ s.danger = 1) := by
      intro hx; exact hfire ⟨hx.1, hx.2.1⟩
    rw [if_neg hhit, if_neg hfire]
    constructor
    · intro hx; exact absurd hx.1 hx.2
    · intro hx; exact absurd hx.1 hx.2

/-- Initial victim states: construction succeeds exactly for rescuable
colors and yields the declared color, danger 1, savior "none". -/
lemma initVicState_eq (c : Color) (s : VicState) (h : initVicState c = some s) :
    s = { color := c, danger := 1, savior := "none" } ∧ Rescuable c := by
  cases c with
  | Green =>
      refine ⟨?_, Or.inl rfl⟩
      simpa [initVicState, COLOR_REQD_TIMES, COLOR_REWARDS] using h.symm
  | Gold =>
      refine ⟨?_, Or.inr rfl⟩
      simpa [initVicState, COLOR_REQD_TIMES, COLOR_REWARDS] using h.symm
  | Red => simp [initVicState, COLOR_REQD_TIMES] at h
  | White => simp [initVicState, COLOR_REQD_TIMES] at h

lemma initVics_spec (reg : List RegVic) (vs : List VicState) (h : initVics reg = some vs) :
    vs.length = reg.length ∧
    ∀ i, ∀ hi : i < reg.length, ∀ hv : i < vs.length,
      vs[i] = { color := (reg[i]).color, danger := 1, savior := "none" } ∧
      Rescuable (reg[i]).color := by
  induction reg generalizing vs with
  | nil =>
      simp [initVics] at h
      subst h
      exact ⟨rfl, fun i hi hv => absurd hi (Nat.not_lt_zero i)⟩
  | cons r rs ih =>
      unfold initVics at h
      cases hs : initVicState r.color with
      | none => rw [hs] at h; simp at h
      | some s =>
      rw [hs] at h
      cases hss : initVics rs with
      | none => rw [hss] at h; simp at h
      | some ss =>
      rw [hss] at h
      simp at h
      subst h
      obtain ⟨hlen, hrest⟩ := ih ss hss
      obtain ⟨hseq, hres⟩ := initVicState_eq r.color s hs
      refine ⟨by simp [hlen], ?_⟩
      intro i hi hv
      cases i with
      | zero => exact ⟨by simpa using hseq, hres⟩
      | succ j =>
          have hj : j < rs.length := by simpa using hi
          have hjv : j < ss.length := by omega
          simpa using hrest j hj hjv

/-- State invariant of a whole world. -/
def WorldInv (hname : String) (reg : List RegVic) (w : World) : Prop :=
  w.vics.length = reg.length ∧
  ∀ i, ∀ hi : i < reg.length, ∀ hv : i < w.vics.length, VicInv hname reg[i] w.vics[i]

lemma WorldInv_init (hname : String) (loc0 : String) (reg : List RegVic) (w0 : World)
    (hw : initWorld loc0 reg = some w0) :
    WorldInv hname reg w0 ∧ w0.agent = initAgent loc0 ∧
    ∀ i, ∀ hi : i < reg.length, ∀ hv : i < w0.vics.length, Rescuable (reg[i]).color := by
  unfold initWorld at hw
  cases hvs : initVics reg with
  | none => rw [hvs] at hw; simp at hw
  | some vs =>
      rw [hvs] at hw
      simp at hw
      obtain ⟨hlen, hspec⟩ := initVics_spec reg vs hvs
      subst hw
      refine ⟨⟨hlen, ?_⟩, rfl, ?_⟩
      · intro i hi hv
        have := (hspec i hi hv).1
        rw [this]
        exact Or.inl ⟨rfl, rfl, rfl⟩
      · intro i hi hv
        exact (hspec i hi hv).2

lemma WorldInv_step (hname : String) (reg : List RegVic) (w : World) (a : Act)
    (h : WorldInv hname reg w) : WorldInv hname reg (step hname reg w a) := by
  obtain ⟨hlen, hinv⟩ := h
  refine ⟨step_vics_length hname reg w a hlen, ?_⟩
  intro i hi hv
  have hv0 : i < w.vics.length := by omega
  rcases step_vics_getElem_cases hname reg w a i hi hv0 hv with he | he
  · rw [he]; exact hinv i hi hv0
  · rw [he]; exact triageVicUpd_inv hname w.agent reg[i] w.vics[i] (hinv i hi hv0)

lemma WorldInv_run (hname : String) (reg : List RegVic) (acts : List Act) (w : World)
    (h : WorldInv hname reg w) : WorldInv hname reg (run hname reg w acts) := by
  induction acts generalizing w with
  | nil => exact h
  | cons a rest ih => exact ih (step hname reg w a) (WorldInv_step hname reg w a h)

/-- The chained saved-flag condition holds exactly when some victim of the
color satisfies the savior transition. -/
lemma savedColorTrans_iff (hname : String) (c : Color) (rs : List RegVic)
    (ss ss' : List VicState) :
    savedColorTrans hname c rs ss ss' = true ↔
      ∃ i, ∃ h1 : i < rs.length, ∃ h2 : i < ss.length, ∃ h3 : i < ss'.length,
        (rs[i]).color = c ∧ (ss[i]).savior = "none" ∧ (ss'[i]).savior = hname := by
  induction rs generalizing ss ss' with
  | nil =>
      simp [savedColorTrans]
  | cons r rtl ih =>
      cases ss with
      | nil => simp [savedColorTrans]
      | cons s stl =>
          cases ss' with
          | nil => simp [savedColorTrans]
          | cons s' stl' =>
              rw [savedColorTrans]
              simp only [Bool.or_eq_true, Bool.and_eq_true, decide_eq_true_eq]
              rw [ih stl stl']
              constructor
              · rintro (⟨⟨hc, hpre⟩, hpost⟩ | ⟨j, hj1, hj2, hj3, hc, hpre, hpost⟩)
                · exact ⟨0, by simp, by simp, by simp, by simpa using hc,
                    by simpa using hpre, by simpa using hpost⟩
                · exact ⟨j + 1, by simpa using hj1, by simpa using hj2,
                    by simpa using hj3, by simpa using hc, by simpa using hpre,
                    by simpa using hpost⟩
              · rintro ⟨i, h1, h2, h3, hc, hpre, hpost⟩
                cases i with
                | zero =>
                    exact Or.inl ⟨⟨by simpa using hc, by simpa using hpre⟩,
                      by simpa using hpost⟩
                | succ j =>
                    exact Or.inr ⟨j, by simpa using h1, by simpa using h2,
                      by simpa using h3, by simpa using hc, by simpa using hpre,
                      by simpa using hpost⟩

/-- When the acting human is not named "none", a savior transition detected
by the saved-flag dynamics of a triage step forces the crosshair to hold
exactly the transitioning victim's color. -/
lemma savedColorTrans_crosshair (hname : String) (hn : hname ≠ "none") (c : Color)
    (reg : List RegVic) (w : World)
    (h : savedColorTrans hname c reg w.vics
        (List.zipWith (triageVicUpd hname w.agent) reg w.vics) = true) :
    w.agent.vicInCH = some c := by
  rw [savedColorTrans_iff] at h
  obtain ⟨i, h1, h2, h3, hc, hpre, hpost⟩ := h
  rw [List.getElem_zipWith] at hpost
  unfold triageVicUpd at hpost
  dsimp only at hpost
  by_cases hhit : w.agent.vicInCH = some (reg[i]).color ∧ w.agent.loc = (reg[i]).room ∧
      (w.vics[i]).danger = 1
  · rw [hc] at hhit
    exact hhit.1
  · rw [if_neg hhit] at hpost
    rw [hpre] at hpost
    exact absurd hpost.symm hn

lemma normalizeD_of_sum_one (d : Dist) (h : (d.map Prod.snd).sum = 1) : normalizeD d = d := by
  unfold normalizeD
  rw [h]
  simp

/-- Detection-probability table of the first C5 scenario: Gold detected with
probability 0.4. -/
def pGold04 : Color → ℚ := fun c => match c with | Color.Gold => 2 / 5 | _ => 0

/-- Detection-probability table of the second C5 scenario: every color
detected with probability 0.2. -/
def p02 : Color → ℚ := fun _ => 1 / 5

/-! Claim theorems. -/

/-- C3: the compiled triage action is legal exactly when the agent's
crosshair variable equals its approached variable and the shared value is
Gold or Green; it is illegal whenever the two variables differ, and illegal
when the shared value is "none", White, or Red. -/
theorem triage_legality_c3 :
    (∀ a : AgentState, triageLegal a = true ↔
        (a.vicInCH = a.vicApproached ∧
          (a.vicInCH = some Color.Gold ∨ a.vicInCH = some Color.Green))) ∧
    (∀ a : AgentState, a.vicInCH ≠ a.vicApproached → triageLegal a = false) ∧
    (∀ a : AgentState, a.vicInCH = a.vicApproached →
        a.vicInCH = none ∨ a.vicInCH = some Color.White ∨ a.vicInCH = some Color.Red →
        triageLegal a = false) := by
  refine ⟨?_, ?_, ?_⟩
  · intro a
    unfold triageLegal
    by_cases h1 : a.vicInCH = a.vicApproached
    · by_cases h2 : a.vicInCH = some Color.Gold ∨ a.vicInCH = some Color.Green
      · simp [h1, h2]
      · simp [h1, h2]
    · simp [h1]
  · intro a h
    unfold triageLegal
    simp [h]
  · intro a h1 h2
    unfold triageLegal
    rw [if_pos h1]
    have hno : ¬(a.vicInCH = some Color.Gold ∨ a.vicInCH = some Color.Green) := by
      rcases h2 with h | h | h <;> rw [h] <;> simp
    simp [hno]

/-- C3 witness: a state with crosshair Gold but approached "none" is
illegal. -/
theorem triage_legality_c3_witness :
    triageLegal
      { loc := "L", vicInFOV := none, vicInCH := some Color.Gold,
        vicApproached := none, saved_Green := false, saved_Gold := false } = false :=
  triage_legality_c3.2.1 _ (by decide)

/-- C5: the one-victim field-of-view table gives color C weight p C and
"none" the complement, renormalized (a no-op here since the weights sum to
1); the two-victim table doubles the weight for equal colors, keeps the two
individual weights for distinct colors, puts the residual on "none", and
renormalizes; with p Gold = 0.4 one Gold victim yields Gold 0.4 / none 0.6,
and with p = 0.2 a Green plus a Gold victim yields Green 0.2, Gold 0.2,
none 0.6. -/
theorem fov_table_c5 (p : Color → ℚ) :
    makeAllFOVDistrs p 1 = some (FOVTable.one (fovDistr1 p)) ∧
    (∀ c1 : Color, fovDistr1 p c1 = [(some c1, p c1), (none, 1 - p c1)]) ∧
    makeAllFOVDistrs p 2 = some (FOVTable.two (fovDistr2 p)) ∧
    (∀ c : Color, fovDistr2 p c c = [(some c, 2 * p c), (none, 1 - 2 * p c)]) ∧
    (∀ c1 c2 : Color, c1 ≠ c2 →
        fovDistr2 p c1 c2 =
          [(some c1, p c1), (some c2, p c2), (none, 1 - (p c1 + p c2))]) ∧
    fovDistr1 pGold04 Color.Gold = [(some Color.Gold, 2 / 5), (none, 3 / 5)] ∧
    fovDistr2 p02 Color.Green Color.Gold =
      [(some Color.Green, 1 / 5), (some Color.Gold, 1 / 5), (none, 3 / 5)] := by
  have h1 : ∀ q : Color → ℚ, ∀ c1 : Color,
      fovDistr1 q c1 = [(some c1, q c1), (none, 1 - q c1)] := by
    intro q c1
    unfold fovDistr1
    apply normalizeD_of_sum_one
    simp
  have h2 : ∀ q : Color → ℚ, ∀ c : Color,
      fovDistr2 q c c = [(some c, 2 * q c), (none, 1 - 2 * q c)] := by
    intro q c
    unfold fovDistr2
    rw [if_pos rfl]
    apply normalizeD_of_sum_one
    simp
  have h3 : ∀ q : Color → ℚ, ∀ c1 c2 : Color, c1 ≠ c2 →
      fovDistr2 q c1 c2 = [(some c1, q c1), (some c2, q c2), (none, 1 - (q c1 + q c2))] := by
    intro q c1 c2 hne
    unfold fovDistr2
    rw [if_neg hne]
    apply normalizeD_of_sum_one
    simp
    ring
  refine ⟨rfl, h1 p, rfl, h2 p, h3 p, ?_, ?_⟩
  · rw [h1 pGold04 Color.Gold]
    norm_num [pGold04]
  · rw [h3 p02 Color.Green Color.Gold (by decide)]
    norm_num [p02]

/-- C5 witness: the distinct-colors branch applied at the concrete scenario
inputs. -/
theorem fov_table_c5_witness :
    fovDistr2 p02 Color.Green Color.Gold =
      [(some Color.Green, p02 Color.Green), (some Color.Gold, p02 Color.Gold),
        (none, 1 - (p02 Color.Green + p02 Color.Gold))] :=
  (fov_table_c5 p02).2.2.2.2.1 Color.Green Color.Gold (by decide)

/-- C6: every branch of the field-of-view tables for rooms of 0, 1 or 2
victims sums to exactly 1, for every detection-probability configuration;
and normalizeD recovers (by dividing each weight by the total) instead of
rejecting: the normalized total is 1 whenever the incoming total is
nonzero. -/
theorem fov_sums_c6 (p : Color → ℚ) :
    (fovDistr0.map Prod.snd).sum = 1 ∧
    (∀ c1 : Color, ((fovDistr1 p c1).map Prod.snd).sum = 1) ∧
    (∀ c1 c2 : Color, ((fovDistr2 p c1 c2).map Prod.snd).sum = 1) ∧
    (∀ d : Dist, ((normalizeD d).map Prod.snd).sum =
        if (d.map Prod.snd).sum = 0 then 0 else 1) := by
  have hnorm : ∀ d : Dist, ((normalizeD d).map Prod.snd).sum =
      if (d.map Prod.snd).sum = 0 then 0 else 1 := by
    intro d
    rw [normalizeD_snd_sum]
    by_cases h : (d.map Prod.snd).sum = 0
    · rw [if_pos h, h]
      simp
    · rw [if_neg h]
      exact div_self h
  refine ⟨?_, ?_, ?_, hnorm⟩
  · unfold fovDistr0
    rw [hnorm]
    norm_num
  · intro c1
    unfold fovDistr1
    rw [hnorm]
    simp
  · intro c1 c2
    unfold fovDistr2
    rw [hnorm]
    by_cases h : c1 = c2
    · rw [if_pos h]
      simp
    · rw [if_neg h]
      have : (([(some c1, p c1), (some c2, p c2),
          ((none : FovVal), 1 - (p c1 + p c2))] : Dist).map Prod.snd).sum = 1 := by
        simp
        ring
      rw [this]
      norm_num

lemma rewardWeight_some (rwd_dict : Option (List (Color × Int))) (c : Color)
    (hc : Rescuable c) : (rewardWeight rwd_dict c).isSome := by
  cases rwd_dict with
  | none => rcases hc with h | h <;> subst h <;> simp [rewardWeight, COLOR_REWARDS]
  | some d =>
      cases hg : dictGet d c with
      | none =>
          rcases hc with h | h <;> subst h <;> simp [rewardWeight, hg, COLOR_REWARDS]
      | some v => simp [rewardWeight, hg]

/-- C7: the compiled reward rule is a first-match chain in the fixed order
Green then Gold; it sets the reward to the configured weight of the first
color whose just-saved flag is true (the override dict entry when present,
else the default per-color reward) and leaves the reward unchanged when no
flag is true. -/
theorem victim_reward_c7 (rwd_dict : Option (List (Color × Int))) :
    (∀ d c v, rwd_dict = some d → dictGet d c = some v →
        rewardWeight rwd_dict c = some v) ∧
    (∀ d c, rwd_dict = some d → dictGet d c = none →
        rewardWeight rwd_dict c = COLOR_REWARDS c) ∧
    (rwd_dict = none → ∀ c, rewardWeight rwd_dict c = COLOR_REWARDS c) ∧
    makeVictimReward rwd_dict =
      some (RTree.ifFlag Color.Green
        (RTree.setConst ((rewardWeight rwd_dict Color.Green).getD 0))
        (RTree.ifFlag Color.Gold
          (RTree.setConst ((rewardWeight rwd_dict Color.Gold).getD 0))
          RTree.noChange)) ∧
    (∀ (flags : Color → Bool) (r : Int) (t : RTree), makeVictimReward rwd_dict = some t →
      evalRTree flags r t =
        if flags Color.Green then (rewardWeight rwd_dict Color.Green).getD 0
        else if flags Color.Gold then (rewardWeight rwd_dict Color.Gold).getD 0
        else r) := by
  obtain ⟨wG, hG⟩ := Option.isSome_iff_exists.mp
    (rewardWeight_some rwd_dict Color.Green (Or.inl rfl))
  obtain ⟨wD, hD⟩ := Option.isSome_iff_exists.mp
    (rewardWeight_some rwd_dict Color.Gold (Or.inr rfl))
  have htree : makeVictimReward rwd_dict =
      some (RTree.ifFlag Color.Green
        (RTree.setConst ((rewardWeight rwd_dict Color.Green).getD 0))
        (RTree.ifFlag Color.Gold
          (RTree.setConst ((rewardWeight rwd_dict Color.Gold).getD 0))
          RTree.noChange)) := by
    unfold makeVictimReward COLOR_REQD_TIMES_keys
    simp [buildRewardTree, hG, hD]
  refine ⟨?_, ?_, ?_, htree, ?_⟩
  · intro d c v hd hv
    subst hd
    simp [rewardWeight, hv]
  · intro d c hd hv
    subst hd
    simp [rewardWeight, hv]
  · intro hd c
    subst hd
    simp [rewardWeight]
  · intro flags r t ht
    rw [htree] at ht
    have ht2 := Option.some_inj.mp ht
    subst ht2
    rw [hG, hD]
    by_cases hg : flags Color.Green = true
    · simp [evalRTree, hg]
    · by_cases hd : flags Color.Gold = true
      · simp [evalRTree, hg, hd]
      · simp [evalRTree, hg, hd]

/-- C7 witness: an override dict carrying Gold only overrides Gold and
falls back to the default table for Green. -/
theorem victim_reward_c7_witness :
    rewardWeight (some [(Color.Gold, 37)]) Color.Gold = some 37 ∧
    rewardWeight (some [(Color.Gold, 37)]) Color.Green = COLOR_REWARDS Color.Green :=
  ⟨(victim_reward_c7 (some [(Color.Gold, 37)])).1 [(Color.Gold, 37)] Color.Gold 37
      rfl (by decide),
   (victim_reward_c7 (some [(Color.Gold, 37)])).2.1 [(Color.Gold, 37)] Color.Green
      rfl (by decide)⟩

/-- C9: getVicName raises KeyError for an unknown location, prints an ERROR
diagnostic and returns the empty string for a known location without a
victim of the requested color (a reported, never silent, outcome), and
returns the registered victim agent's name for a registered pair; a name is
returned only for a registered pair. -/
theorem getVicName_c9 (reg : LocDict) (loc : String) (color : Color) :
    (dictGet reg loc = none →
        getVicName reg loc color = GetVicNameResult.keyError) ∧
    (∀ d, dictGet reg loc = some d → dictGet d color = none →
        getVicName reg loc color = GetVicNameResult.reportedEmpty) ∧
    (∀ d vname, dictGet reg loc = some d → dictGet d color = some vname →
        getVicName reg loc color = GetVicNameResult.name vname) ∧
    (∀ vname, getVicName reg loc color = GetVicNameResult.name vname →
        ∃ d, dictGet reg loc = some d ∧ dictGet d color = some vname) := by
  refine ⟨?_, ?_, ?_, ?_⟩
  · intro h
    unfold getVicName
    rw [h]
  · intro d hd hc
    simp [getVicName, hd, hc]
  · intro d vname hd hc
    simp [getVicName, hd, hc]
  · intro vname h
    unfold getVicName at h
    cases hd : dictGet reg loc with
    | none => simp [hd] at h
    | some d =>
        simp only [hd] at h
        cases hc : dictGet d color with
        | none => simp [hc] at h
        | some v =>
            simp only [hc] at h
            simp at h
            exact ⟨d, rfl, by rw [hc, h]⟩

/-- C2: the per-victim triage dynamics fire exactly when the agent is in the
victim's room with the victim's color in the crosshair; a firing step
decrements danger by 1, and sets color to White and savior to the agent
exactly when danger was 1 before the step (so danger reaches 0); danger is
non-increasing over every trace, and from the built initial world the color
is White exactly once danger has reached 0, the flip happening at the exact
step danger goes from 1 to 0 and never earlier. -/
theorem triage_dynamics_c2 (hname : String) (reg : List RegVic) (loc0 : String)
    (w0 : World) (hw0 : initWorld loc0 reg = some w0) :
    (∀ (a : AgentState) (r : RegVic) (s : VicState),
      ((a.vicInCH = some r.color ∧ a.loc = r.room) →
        (triageVicUpd hname a r s).danger = s.danger - 1 ∧
        (s.danger = 1 → (triageVicUpd hname a r s).color = Color.White ∧
            (triageVicUpd hname a r s).savior = hname) ∧
        (s.danger ≠ 1 → (triageVicUpd hname a r s).color = s.color ∧
            (triageVicUpd hname a r s).savior = s.savior)) ∧
      (¬(a.vicInCH = some r.color ∧ a.loc = r.room) → triageVicUpd hname a r s = s)) ∧
    (∀ (w : World) (acts : List Act) (i : Nat), i < reg.length →
      w.vics.length = reg.length →
      ∀ hv : i < w.vics.length, ∀ hv2 : i < (run hname reg w acts).vics.length,
        ((run hname reg w acts).vics[i]).danger ≤ (w.vics[i]).danger) ∧
    (∀ (acts : List Act) (i : Nat), i < reg.length →
      ∀ hv2 : i < (run hname reg w0 acts).vics.length,
        (((run hname reg w0 acts).vics[i]).color = Color.White ↔
          ((run hname reg w0 acts).vics[i]).danger ≤ 0)) ∧
    (∀ (w : World) (a : Act) (i : Nat), i < reg.length →
      ∀ hv : i < w.vics.length, ∀ hv2 : i < (step hname reg w a).vics.length,
        (((step hname reg w a).vics[i]).danger = 0 ∧ (w.vics[i]).danger ≠ 0 →
            ((step hname reg w a).vics[i]).color = Color.White) ∧
        (((step hname reg w a).vics[i]).color = Color.White ∧
            (w.vics[i]).color ≠ Color.White →
          (w.vics[i]).danger = 1 ∧ ((step hname reg w a).vics[i]).danger = 0)) := by
  refine ⟨?_, ?_, ?_, ?_⟩
  · intro a r s
    constructor
    · intro hfire
      refine ⟨?_, ?_, ?_⟩
      · unfold triageVicUpd
        dsimp only
        rw [if_pos hfire]
      · intro h1
        have hhit : a.vicInCH = some r.color ∧ a.loc = r.room ∧ s.danger = 1 :=
          ⟨hfire.1, hfire.2, h1⟩
        unfold triageVicUpd
        dsimp only
        rw [if_pos hhit, if_pos hhit]
        exact ⟨rfl, rfl⟩
      · intro h1
        have hhit : ¬(a.vicInCH = some r.color ∧ a.loc = r.room ∧ s.danger = 1) :=
          fun hx => h1 hx.2.2
        unfold triageVicUpd
        dsimp only
        rw [if_neg hhit, if_neg hhit]
        exact ⟨rfl, rfl⟩
    · intro hfire
      have hhit : ¬(a.vicInCH = some r.color ∧ a.loc = r.room ∧ s.danger = 1) :=
        fun hx => hfire ⟨hx.1, hx.2.1⟩
      unfold triageVicUpd
      rw [if_neg hhit, if_neg hhit, if_neg hfire]
  · intro w acts i hi hlen hv hv2
    exact run_danger_le hname reg acts w i hi hlen hv hv2
  · intro acts i hi hv2
    obtain ⟨hinv0, hag, hres⟩ := WorldInv_init hname loc0 reg w0 hw0
    have hlen0 : w0.vics.length = reg.length := hinv0.1
    obtain ⟨hlen, hvic⟩ := WorldInv_run hname reg acts w0 hinv0
    have h := hvic i hi (by omega)
    have hrc := hres i hi (by omega)
    rcases h with ⟨hc, hd, hs⟩ | ⟨hc, hd, hs⟩
    · constructor
      · intro hw
        rw [hc] at hw
        rcases hrc with h | h <;> rw [h] at hw <;> exact absurd hw (by decide)
      · intro hw
        omega
    · exact ⟨fun _ => hd, fun _ => hc⟩
  · intro w a i hi hv hv2
    rcases step_vics_getElem_cases hname reg w a i hi hv hv2 with he | he
    · rw [he]
      exact ⟨fun hx => absurd hx.1 hx.2, fun hx => absurd hx.1 hx.2⟩
    · rw [he]
      exact triageVicUpd_white_exact hname w.agent reg[i] w.vics[i]

lemma run_rescued_frozen (hname : String) (reg : List RegVic) (acts : List Act)
    (w : World) (i : Nat) (hi : i < reg.length) (hlen : w.vics.length = reg.length)
    (hv : i < w.vics.length) (hv2 : i < (run hname reg w acts).vics.length)
    (hd : (w.vics[i]).danger ≤ 0) :
    ((run hname reg w acts).vics[i]).savior = (w.vics[i]).savior ∧
    ((run hname reg w acts).vics[i]).color = (w.vics[i]).color ∧
    ((run hname reg w acts).vics[i]).danger ≤ 0 := by
  induction acts generalizing w with
  | nil => exact ⟨rfl, rfl, hd⟩
  | cons a rest ih =>
      have hlen1 : (step hname reg w a).vics.length = reg.length :=
        step_vics_length hname reg w a hlen
      have hv1 : i < (step hname reg w a).vics.length := by omega
      obtain ⟨hs1, hc1, hd1⟩ := step_rescued_frozen hname reg w a i hi hv hv1 hd
      have hrec := ih (step hname reg w a) hlen1 hv1 hv2 hd1
      exact ⟨hrec.1.trans hs1, hrec.2.1.trans hc1, hrec.2.2⟩

/-- C4: from the built initial world, once a victim's savior is no longer
"none" the victim has been rescued (color White, danger down to 0), and
every further trace of compiled actions leaves its savior and color
unchanged; hence savior is set at most once along any trace. -/
theorem savior_once_c4 (hname : String) (reg : List RegVic) (loc0 : String) (w0 : World)
    (hw0 : initWorld loc0 reg = some w0) (acts1 acts2 : List Act) (i : Nat)
    (hi : i < reg.length)
    (hv1 : i < (run hname reg w0 acts1).vics.length)
    (hv2 : i < (run hname reg (run hname reg w0 acts1) acts2).vics.length)
    (hs : ((run hname reg w0 acts1).vics[i]).savior ≠ "none") :
    ((run hname reg w0 acts1).vics[i]).danger ≤ 0 ∧
    ((run hname reg w0 acts1).vics[i]).color = Color.White ∧
    ((run hname reg w0 acts1).vics[i]).savior = hname ∧
    ((run hname reg (run hname reg w0 acts1) acts2).vics[i]).savior =
      ((run hname reg w0 acts1).vics[i]).savior ∧
    ((run hname reg (run hname reg w0 acts1) acts2).vics[i]).color =
      ((run hname reg w0 acts1).vics[i]).color := by
  obtain ⟨hinv0, hag, hres⟩ := WorldInv_init hname loc0 reg w0 hw0
  obtain ⟨hlen, hvic⟩ := WorldInv_run hname reg acts1 w0 hinv0
  have h := hvic i hi (by omega)
  rcases h with ⟨hc, hd, hsv⟩ | ⟨hc, hd, hsv⟩
  · exact absurd hsv hs
  · obtain ⟨hfs, hfc, hfd⟩ := run_rescued_frozen hname reg acts2
      (run hname reg w0 acts1) i hi hlen (by omega) hv2 (by omega)
    exact ⟨hd, hc, hsv, hfs, hfc⟩

/-- Registry of the C4 witness: one Green victim in room RB. -/
def c4Reg : List RegVic := [{ room := "RB", color := Color.Green }]

/-- The C4 witness world as built by setupTriager. -/
def c4W0 : World :=
  { agent := initAgent "RB"
    vics := [{ color := Color.Green, danger := 1, savior := "none" }] }

/-- The C4 witness rescue trace. -/
def c4Acts : List Act :=
  [Act.search (some Color.Green), Act.actCH, Act.actApproach, Act.triage]

/-- C4 witness: after the rescue trace the savior is set, and two further
triage steps leave savior and color unchanged. -/
theorem savior_once_c4_witness :
    ((run "P4" c4Reg (run "P4" c4Reg c4W0 c4Acts) [Act.triage, Act.triage]).vics.get
        ⟨0, by decide⟩).savior =
      ((run "P4" c4Reg c4W0 c4Acts).vics.get ⟨0, by decide⟩).savior ∧
    ((run "P4" c4Reg (run "P4" c4Reg c4W0 c4Acts) [Act.triage, Act.triage]).vics.get
        ⟨0, by decide⟩).color =
      ((run "P4" c4Reg c4W0 c4Acts).vics.get ⟨0, by decide⟩).color := by
  have h := savior_once_c4 "P4" c4Reg "RB" c4W0 (by decide) c4Acts
    [Act.triage, Act.triage] 0 (by decide) (by decide) (by decide) (by decide)
  exact ⟨h.2.2.2.1, h.2.2.2.2⟩

lemma run_triage_iter (hname : String) (reg : List RegVic) (i : Nat)
    (hi : i < reg.length) :
    ∀ (n : Nat) (w : World), w.vics.length = reg.length →
      w.agent.vicInCH = some (reg[i]).color → w.agent.loc = (reg[i]).room →
      ∀ hv : i < w.vics.length,
      ∀ hrun : i < (run hname reg w (List.replicate n Act.triage)).vics.length,
      (run hname reg w (List.replicate n Act.triage)).agent.vicInCH =
          w.agent.vicInCH ∧
      (run hname reg w (List.replicate n Act.triage)).agent.vicApproached =
          w.agent.vicApproached ∧
      (run hname reg w (List.replicate n Act.triage)).agent.loc = w.agent.loc ∧
      ((run hname reg w (List.replicate n Act.triage)).vics[i]).danger =
        (w.vics[i]).danger - n := by
  intro n
  induction n with
  | zero =>
      intro w hlen hch hloc hv hrun
      refine ⟨rfl, rfl, rfl, ?_⟩
      show (w.vics[i]).danger = (w.vics[i]).danger - ((0 : Nat) : Int)
      simp
  | succ m ih =>
      intro w hlen hch hloc hv hrun
      have hlen1 : (stepTriage hname reg w).vics.length = reg.length :=
        step_vics_length hname reg w Act.triage hlen
      have hv1 : i < (stepTriage hname reg w).vics.length := by omega
      have hch1 : (stepTriage hname reg w).agent.vicInCH = some (reg[i]).color := hch
      have hloc1 : (stepTriage hname reg w).agent.loc = (reg[i]).room := hloc
      have hd1 : ((stepTriage hname reg w).vics[i]).danger = (w.vics[i]).danger - 1 := by
        rw [stepTriage_vics_getElem hname reg w i hi hv hv1]
        unfold triageVicUpd
        dsimp only
        rw [if_pos ⟨hch, hloc⟩]
      have hrun1 : i <
          (run hname reg (stepTriage hname reg w) (List.replicate m Act.triage)).vics.length :=
        hrun
      obtain ⟨h1, h2, h3, h4⟩ := ih (stepTriage hname reg w) hlen1 hch1 hloc1 hv1 hrun1
      refine ⟨h1, h2, h3, ?_⟩
      have h5 : ((run hname reg w (List.replicate (m + 1) Act.triage)).vics[i]).danger =
          ((stepTriage hname reg w).vics[i]).danger - (m : Int) := h4
      rw [h5, hd1]
      push_cast
      ring

/-- C10: triage legality reads only the crosshair and approached variables;
in a state where a victim is already rescued (White, danger 0, savior set)
but the crosshair and approached variables still hold its original
rescuable color and the agent is in its room, triage remains legal, and n
further triage steps drive the victim's danger to minus n: the compiled
dynamics impose no lower bound of 0 on danger. -/
theorem triage_below_zero_c10 (hname : String) (reg : List RegVic) (w : World) (i : Nat)
    (hi : i < reg.length) (hlen : w.vics.length = reg.length)
    (hv : i < w.vics.length)
    (hrc : Rescuable (reg[i]).color)
    (hch : w.agent.vicInCH = some (reg[i]).color)
    (hap : w.agent.vicApproached = some (reg[i]).color)
    (hloc : w.agent.loc = (reg[i]).room)
    (hwhite : (w.vics[i]).color = Color.White)
    (hd : (w.vics[i]).danger = 0)
    (hs : (w.vics[i]).savior ≠ "none") :
    (∀ a1 a2 : AgentState, a1.vicInCH = a2.vicInCH →
        a1.vicApproached = a2.vicApproached → triageLegal a1 = triageLegal a2) ∧
    triageLegal w.agent = true ∧
    (∀ n : Nat, ∀ hrun : i < (run hname reg w (List.replicate n Act.triage)).vics.length,
      triageLegal (run hname reg w (List.replicate n Act.triage)).agent = true ∧
      ((run hname reg w (List.replicate n Act.triage)).vics[i]).danger = -(n : Int)) := by
  have hframe : ∀ a1 a2 : AgentState, a1.vicInCH = a2.vicInCH →
      a1.vicApproached = a2.vicApproached → triageLegal a1 = triageLegal a2 := by
    intro a1 a2 h1 h2
    unfold triageLegal
    rw [h1, h2]
  have hlegal : triageLegal w.agent = true := by
    unfold triageLegal
    rw [hch, hap, if_pos rfl]
    rcases hrc with h | h <;> rw [h] <;> simp
  refine ⟨hframe, hlegal, ?_⟩
  intro n hrun
  obtain ⟨h1, h2, h3, h4⟩ := run_triage_iter hname reg i hi n w hlen hch hloc hv hrun
  constructor
  · rw [hframe (run hname reg w (List.replicate n Act.triage)).agent w.agent h1 h2]
    exact hlegal
  · rw [h4, hd]
    ring

/-- Registry of the C10 witness: one Gold victim in room RC. -/
def c10Reg : List RegVic := [{ room := "RC", color := Color.Gold }]

/-- The C10 witness world: the victim already rescued, crosshair and
approached still Gold. -/
def c10W : World :=
  { agent :=
      { loc := "RC", vicInFOV := some Color.Gold, vicInCH := some Color.Gold,
        vicApproached := some Color.Gold, saved_Green := false, saved_Gold := true }
    vics := [{ color := Color.White, danger := 0, savior := "P10" }] }

/-- C10 witness: three further triage steps remain legal and drive danger to
minus 3. -/
theorem triage_below_zero_c10_witness :
    triageLegal (run "P10" c10Reg c10W (List.replicate 3 Act.triage)).agent = true ∧
    ((run "P10" c10Reg c10W (List.replicate 3 Act.triage)).vics.get
        ⟨0, by decide⟩).danger = -(3 : Int) := by
  have h := (triage_below_zero_c10 "P10" c10Reg c10W 0 (by decide) (by decide)
      (by decide) (Or.inr rfl) (by decide) (by decide) (by decide) (by decide)
      (by decide) (by decide)).2.2 3 (by decide)
  exact h

/-- C1 (amended): a triage step sets just-saved flag of a color to true
exactly when some victim of that color transitions savior from "none" to
the acting agent's name in this step, and otherwise leaves the flag
unchanged (the makeSavedColorDyn tree ends in noChangeMatrix, not in a
set-to-false; the flags are reset to false only by the search, actCH and
actApproach actions); consequently the flag becomes newly true only on the
exact step a savior flips, such a flip forces the crosshair to hold that
color, and at most one color's flag can become newly true in one step. -/
theorem saved_flag_amended_c1 (hname : String) (reg : List RegVic) (w : World)
    (hn : hname ≠ "none") :
    ((stepTriage hname reg w).agent.saved_Gold = true ↔
      ((∃ i, ∃ h1 : i < reg.length, ∃ h2 : i < w.vics.length,
          ∃ h3 : i < (stepTriage hname reg w).vics.length,
          (reg[i]).color = Color.Gold ∧ (w.vics[i]).savior = "none" ∧
          ((stepTriage hname reg w).vics[i]).savior = hname) ∨
        w.agent.saved_Gold = true)) ∧
    ((stepTriage hname reg w).agent.saved_Green = true ↔
      ((∃ i, ∃ h1 : i < reg.length, ∃ h2 : i < w.vics.length,
          ∃ h3 : i < (stepTriage hname reg w).vics.length,
          (reg[i]).color = Color.Green ∧ (w.vics[i]).savior = "none" ∧
          ((stepTriage hname reg w).vics[i]).savior = hname) ∨
        w.agent.saved_Green = true)) ∧
    ((stepTriage hname reg w).agent.saved_Gold = true ∧ w.agent.saved_Gold = false →
        w.agent.vicInCH = some Color.Gold) ∧
    ((stepTriage hname reg w).agent.saved_Green = true ∧ w.agent.saved_Green = false →
        w.agent.vicInCH = some Color.Green) ∧
    ¬((stepTriage hname reg w).agent.saved_Gold = true ∧ w.agent.saved_Gold = false ∧
      (stepTriage hname reg w).agent.saved_Green = true ∧
      w.agent.saved_Green = false) := by
  have hfGold : (stepTriage hname reg w).agent.saved_Gold =
      (if savedColorTrans hname Color.Gold reg w.vics (stepTriage hname reg w).vics
        then true else w.agent.saved_Gold) := rfl
  have hfGreen : (stepTriage hname reg w).agent.saved_Green =
      (if savedColorTrans hname Color.Green reg w.vics (stepTriage hname reg w).vics
        then true else w.agent.saved_Green) := rfl
  have hiffG : ∀ c : Color,
      (if savedColorTrans hname c reg w.vics (stepTriage hname reg w).vics
          then true else (if c = Color.Gold then w.agent.saved_Gold
            else w.agent.saved_Green)) = true ↔
        (savedColorTrans hname c reg w.vics (stepTriage hname reg w).vics = true ∨
          (if c = Color.Gold then w.agent.saved_Gold
            else w.agent.saved_Green) = true) := by
    intro c
    by_cases ht : savedColorTrans hname c reg w.vics (stepTriage hname reg w).vics = true
    · simp [ht]
    · simp [ht]
  have hexG : ∀ c : Color,
      savedColorTrans hname c reg w.vics (stepTriage hname reg w).vics = true ↔
        (∃ i, ∃ h1 : i < reg.length, ∃ h2 : i < w.vics.length,
          ∃ h3 : i < (stepTriage hname reg w).vics.length,
          (reg[i]).color = c ∧ (w.vics[i]).savior = "none" ∧
          ((stepTriage hname reg w).vics[i]).savior = hname) := by
    intro c
    exact savedColorTrans_iff hname c reg w.vics (stepTriage hname reg w).vics
  have hcross : ∀ c : Color,
      savedColorTrans hname c reg w.vics (stepTriage hname reg w).vics = true →
        w.agent.vicInCH = some c := by
    intro c hc
    exact savedColorTrans_crosshair hname hn c reg w hc
  have hGold : (stepTriage hname reg w).agent.saved_Gold = true ↔
      (savedColorTrans hname Color.Gold reg w.vics (stepTriage hname reg w).vics = true ∨
        w.agent.saved_Gold = true) := by
    rw [hfGold]
    simpa using hiffG Color.Gold
  have hGreen : (stepTriage hname reg w).agent.saved_Green = true ↔
      (savedColorTrans hname Color.Green reg w.vics (stepTriage hname reg w).vics = true ∨
        w.agent.saved_Green = true) := by
    rw [hfGreen]
    simpa using hiffG Color.Green
  have hnewGold : (stepTriage hname reg w).agent.saved_Gold = true ∧
      w.agent.saved_Gold = false → w.agent.vicInCH = some Color.Gold := by
    rintro ⟨h1, h2⟩
    rcases hGold.mp h1 with h | h
    · exact hcross Color.Gold h
    · rw [h2] at h
      exact absurd h (by decide)
  have hnewGreen : (stepTriage hname reg w).agent.saved_Green = true ∧
      w.agent.saved_Green = false → w.agent.vicInCH = some Color.Green := by
    rintro ⟨h1, h2⟩
    rcases hGreen.mp h1 with h | h
    · exact hcross Color.Green h
    · rw [h2] at h
      exact absurd h (by decide)
  refine ⟨?_, ?_, hnewGold, hnewGreen, ?_⟩
  · rw [hGold, hexG Color.Gold]
  · rw [hGreen, hexG Color.Green]
  · rintro ⟨h1, h2, h3, h4⟩
    have ha := hnewGold ⟨h1, h2⟩
    have hb := hnewGreen ⟨h3, h4⟩
    rw [ha] at hb
    exact absurd (Option.some_inj.mp hb) (by decide)

/-- C8 (amended): for a room registered with three or more victims, the
observation-model builder produces no table at all (the Python function
falls off the end and returns None) and the search-action compiler assigns
no field-of-view branch for that room, silently emitting an incomplete
conditional tree; no build-time failure is raised in this module. -/
theorem fov_overfull_amended_c8 (p : Color → ℚ) (reg : LocDict) (loc : String)
    (vics : VicDict) (hl : dictGet reg loc = some vics) (h3 : 3 ≤ vics.length) :
    makeAllFOVDistrs p vics.length = none ∧ searchFovBranch p reg loc = none := by
  rcases vics with _ | ⟨a, tl⟩
  · exact absurd h3 (by simp)
  rcases tl with _ | ⟨b, tl2⟩
  · exact absurd h3 (by simp)
  rcases tl2 with _ | ⟨c, tl3⟩
  · exact absurd h3 (by simp)
  constructor
  · show makeAllFOVDistrs p (tl3.length + 1 + 1 + 1) = none
    rfl
  · unfold searchFovBranch
    rw [hl]

/-- Detection table used in the C8 counterexample. -/
def c8P : Color → ℚ := fun _ => 1 / 5

/-- A registry whose room R holds three declared victims. -/
def c8Reg : LocDict :=
  [("R", [(Color.Green, "victim0"), (Color.Gold, "victim1"), (Color.Red, "victim2")])]

/-- C8 counterexample: with three victims in room R, makeAllFOVDistrs
returns no table, and makeSearchAction still completes, producing a
field-of-view tree whose only branch (the one for R) is missing — an
incomplete tree instead of the build-time refusal the claim requires. -/
theorem fov_overfull_counterexample_c8 :
    makeAllFOVDistrs c8P 3 = none ∧
    searchFovBranch c8P c8Reg "R" = none ∧
    makeSearchActionFovTree c8P c8Reg ["R"] = [none] := by
  refine ⟨rfl, ?_, ?_⟩
  · unfold searchFovBranch
    rw [show dictGet c8Reg "R" =
      some [(Color.Green, "victim0"), (Color.Gold, "victim1"), (Color.Red, "victim2")]
      from rfl]
  · unfold makeSearchActionFovTree
    rw [List.map_singleton]
    unfold searchFovBranch
    rw [show dictGet c8Reg "R" =
      some [(Color.Green, "victim0"), (Color.Gold, "victim1"), (Color.Red, "victim2")]
      from rfl]

/-- C8 amended witness: the amended theorem applied at the concrete
three-victim registry. -/
theorem fov_overfull_amended_c8_witness :
    makeAllFOVDistrs c8P
        ([((Color.Green : Color), "victim0"), (Color.Gold, "victim1"),
          (Color.Red, "victim2")] : VicDict).length = none ∧
    searchFovBranch c8P c8Reg "R" = none :=
  fov_overfull_amended_c8 c8P c8Reg "R"
    [(Color.Green, "victim0"), (Color.Gold, "victim1"), (Color.Red, "victim2")]
    rfl (by simp)

/-- Registry of the C1 worlds: one Gold victim in room R1. -/
def c1Reg : List RegVic := [{ room := "R1", color := Color.Gold }]

/-- The C1 initial world as built by setupTriager. -/
def c1W0 : World :=
  { agent := initAgent "R1"
    vics := [{ color := Color.Gold, danger := 1, savior := "none" }] }

/-- The C1 rescue trace: search, aim, approach, triage. -/
def c1Acts4 : List Act :=
  [Act.search (some Color.Gold), Act.actCH, Act.actApproach, Act.triage]

/-- C1 counterexample: along a legal trace, the fourth step rescues the Gold
victim and sets saved_Gold; the fifth step is another legal triage in which
no victim's savior transitions (the savior is already the agent), yet
saved_Gold is still true after it, where the claim requires the dynamics to
set the flag to false. -/
theorem saved_flag_counterexample_c1 :
    initWorld "R1" c1Reg = some c1W0 ∧
    legalRun "P1" c1Reg c1W0 (c1Acts4 ++ [Act.triage]) = true ∧
    (run "P1" c1Reg c1W0 c1Acts4).agent.saved_Gold = true ∧
    (run "P1" c1Reg c1W0 c1Acts4).vics =
      [{ color := Color.White, danger := 0, savior := "P1" }] ∧
    (run "P1" c1Reg c1W0 (c1Acts4 ++ [Act.triage])).vics =
      [{ color := Color.White, danger := -1, savior := "P1" }] ∧
    (run "P1" c1Reg c1W0 (c1Acts4 ++ [Act.triage])).agent.saved_Gold = true := by
  refine ⟨?_, ?_, ?_, ?_, ?_, ?_⟩ <;> decide

/-- C1 amended witness: at the concrete initial world, the at-most-one-new
flag consequence of the amended theorem. -/
theorem saved_flag_amended_c1_witness :
    ¬((stepTriage "P1" c1Reg c1W0).agent.saved_Gold = true ∧
      c1W0.agent.saved_Gold = false ∧
      (stepTriage "P1" c1Reg c1W0).agent.saved_Green = true ∧
      c1W0.agent.saved_Green = false) :=
  (saved_flag_amended_c1 "P1" c1Reg c1W0 (by decide)).2.2.2.2

/-- Registry of the C2 witness world: one Gold victim in room RA. -/
def c2Reg : List RegVic := [{ room := "RA", color := Color.Gold }]

/-- The C2 witness world as built by setupTriager. -/
def c2W0 : World :=
  { agent := initAgent "RA"
    vics := [{ color := Color.Gold, danger := 1, savior := "none" }] }

/-- The C2 witness trace: search, aim, approach, triage. -/
def c2Acts : List Act :=
  [Act.search (some Color.Gold), Act.actCH, Act.actApproach, Act.triage]

/-- C2 witness: after the concrete rescue trace the victim is White, via the
danger-has-reached-0 direction of the theorem. -/
theorem triage_dynamics_c2_witness :
    ((run "P2" c2Reg c2W0 c2Acts).vics.get ⟨0, by decide⟩).color = Color.White := by
  have h := (triage_dynamics_c2 "P2" c2Reg "RA" c2W0 (by decide)).2.2.1 c2Acts 0
    (by decide) (by decide)
  exact h.mpr (by decide)

/-- Registry used by the C9 witness: room R1 holds one Gold victim. -/
def c9Reg : LocDict := [("R1", [(Color.Gold, "victim0")])]

/-- C9 witness: the three outcomes at concrete inputs. -/
theorem getVicName_c9_witness :
    getVicName c9Reg "R1" Color.Gold = GetVicNameResult.name "victim0" ∧
    getVicName c9Reg "R1" Color.Green = GetVicNameResult.reportedEmpty ∧
    getVicName c9Reg "R2" Color.Gold = GetVicNameResult.keyError :=
  ⟨(getVicName_c9 c9Reg "R1" Color.Gold).2.2.1 [(Color.Gold, "victim0")] "victim0"
      (by decide) (by decide),
   (getVicName_c9 c9Reg "R1" Color.Green).2.1 [(Color.Gold, "victim0")]
      (by decide) (by decide),
   (getVicName_c9 c9Reg "R2" Color.Gold).1 (by decide)⟩

end VictimsCLR
